import Mathlib

/-!
Shallow embedding of the `portscanner` repository's core
(`src/scanner.py`: `PortScanner._tcp_probe`, `PortScanner.scan`,
`PortScanner.stop`; `src/common.py`: `parse_ports`, `TOP_PORTS`).

Python dicts preserve insertion order, so `results` and its per-host
port maps are embedded as insertion-ordered association lists.
Concurrency is embedded by making the nondeterministic parts of a scan
execution explicit parameters (a `Sched`): the successive reads of the
`_stop` flag, the arrival order of completed futures, and for each
probe the outcome of its `socket.create_connection` call together with
the two wall-clock samples around it.
-/

set_option autoImplicit false

namespace PortScan

/-- Embeds the dict literal built at `scanner.py` line 29:
`{"proto":"tcp","state":state,"latency_ms":lat,"error":err}`. -/
structure ProbeResult where
  proto : String
  state : String
  latency_ms : Int
  error : String
deriving Repr, DecidableEq

/-- The possible outcomes of the `socket.create_connection` call inside
`_tcp_probe` (scanner.py lines 20-27), following Python's exception
model: success, `ConnectionRefusedError`, `socket.timeout`, any other
`OSError` (carrying `str(e)`), or an exception outside the `OSError`
hierarchy, which none of the three `except` clauses matches. -/
inductive ConnOutcome where
  | established
  | refused
  | timedOut
  | osError (msg : String)
  | unexpected (msg : String)
deriving Repr, DecidableEq

/-- Embeds `PortScanner._tcp_probe` (scanner.py lines 16-29).
`t0` and `t1` are the two `time.time()` samples in milliseconds, so
`lat = t1 - t0`.  `Except.error` is a Python exception escaping the
function: it happens exactly on an outcome no `except` clause matches. -/
def tcp_probe (host : String) (port : Nat) (t0 : Int) (oc : ConnOutcome) (t1 : Int) :
    Except String (String × Nat × ProbeResult) :=
  match oc with
  | .established => .ok (host, port, ⟨"tcp", "open", t1 - t0, ""⟩)
  | .refused => .ok (host, port, ⟨"tcp", "closed", t1 - t0, ""⟩)
  | .timedOut => .ok (host, port, ⟨"tcp", "filtered", t1 - t0, ""⟩)
  | .osError msg => .ok (host, port, ⟨"tcp", "error", t1 - t0, msg⟩)
  | .unexpected msg => .error msg

/-- A host's port map: `results[host]`, a Python dict from port to
`{"tcp": info}`; the inner dict only ever holds the `"tcp"` key, so the
entry is the `ProbeResult` itself.  Insertion-ordered. -/
abbrev PortMap := List (Nat × ProbeResult)

/-- The `results` dict: host → port map, insertion-ordered. -/
abbrev Results := List (String × PortMap)

/-- Whether the dict `rs` has an entry with key `k` (over any
insertion-ordered association list). -/
def hasKey {α β : Type} [DecidableEq α] (rs : List (α × β)) (k : α) : Bool :=
  rs.any (fun e => e.1 = k)

/-- One step of the dict comprehension `{t: {} for t in targets}`
(scanner.py line 40): assigning to an existing key keeps its position
and overwrites its value (both values are `{}` here), a new key is
appended. -/
def insertEmptyHost (rs : Results) (t : String) : Results :=
  if hasKey rs t then rs else rs ++ [(t, [])]

/-- Embeds `results = {t: {} for t in targets}` (scanner.py line 40). -/
def initResults (targets : List String) : Results :=
  targets.foldl insertEmptyHost []

/-- Embeds `ports_map.setdefault(port, {})["tcp"] = info`: if the port is
present its (only) `"tcp"` entry is overwritten, else appended. -/
def setPort (pm : PortMap) (port : Nat) (info : ProbeResult) : PortMap :=
  if hasKey pm port then
    pm.map (fun e => if e.1 = port then (e.1, info) else e)
  else
    pm ++ [(port, info)]

/-- Embeds `results.setdefault(host, {}).setdefault(port, {})["tcp"] = info`
(scanner.py line 59). -/
def recordResult (rs : Results) (host : String) (port : Nat) (info : ProbeResult) :
    Results :=
  if hasKey rs host then
    rs.map (fun e => if e.1 = host then (e.1, setPort e.2 port info) else e)
  else
    rs ++ [(host, setPort [] port info)]

/-- The submission loop's inner `for p in ports` (scanner.py lines
46-49).  `stop k` is the value read by the `k`-th evaluation of
`self._stop` during this scan; each submitted unit is tagged with the
index of the read performed just before its submission.  `break` leaves
only the inner loop. -/
def submitPorts (stop : Nat → Bool) (do_tcp : Bool) (host : String) :
    List Nat → Nat → List ((String × Nat) × Nat) × Nat
  | [], k => ([], k)
  | p :: rest, k =>
    if stop k then ([], k + 1)
    else
      ((if do_tcp then [((host, p), k)] else []) ++
          (submitPorts stop do_tcp host rest (k + 1)).1,
        (submitPorts stop do_tcp host rest (k + 1)).2)

/-- The submission loop's outer `for host in targets` (scanner.py lines
45-49), threading the stop-read counter across hosts. -/
def submitAll (stop : Nat → Bool) (do_tcp : Bool) (ports : List Nat) :
    List String → Nat → List ((String × Nat) × Nat) × Nat
  | [], k => ([], k)
  | h :: rest, k =>
    ((submitPorts stop do_tcp h ports k).1 ++
        (submitAll stop do_tcp ports rest (submitPorts stop do_tcp h ports k).2).1,
      (submitAll stop do_tcp ports rest (submitPorts stop do_tcp h ports k).2).2)

/-- Mutable aggregate state of the completion-draining loop, together
with the traces of `on_result` and `on_progress` invocations. -/
structure DrainState where
  results : Results
  done : Nat
  resultCalls : List (String × Nat × ProbeResult)
  progressCalls : List (Nat × Nat)
deriving Repr, DecidableEq

/-- The drain loop `for fut in as_completed(futs)` (scanner.py lines
51-65): per completed future, read `_stop` (break if set, discarding
the rest), else `fut.result()` — a worker fault (`.error`) is logged
and skipped (`continue`), a probe result is recorded, `on_result` is
invoked, `done` incremented and `on_progress` invoked. -/
def drainLoop (stop : Nat → Bool) (total : Nat) :
    List (Except String (String × Nat × ProbeResult)) → Nat → DrainState →
      DrainState × Nat
  | [], k, st => (st, k)
  | e :: rest, k, st =>
    if stop k then (st, k + 1)
    else
      match e with
      | .error _ => drainLoop stop total rest (k + 1) st
      | .ok (h, p, info) =>
        drainLoop stop total rest (k + 1)
          { results := recordResult st.results h p info
            done := st.done + 1
            resultCalls := st.resultCalls ++ [(h, p, info)]
            progressCalls := st.progressCalls ++ [(st.done + 1, total)] }

/-- The advisory appended at scanner.py line 73 (the source file's
literal bytes between "filtered" and "possible" decode to U+00E2 U+2020
U+2019). -/
def firewallWarning : String :=
  "many TCP timeouts/filtered â†’ possible firewall"

/-- One per-host summary record (scanner.py line 74). -/
structure Summary where
  host : String
  open_tcp : List Nat
  warnings : List String
deriving Repr, DecidableEq

/-- The body of the summary loop (scanner.py lines 68-74) for one
`(h, ports_map)` item.  `int(0.5*len(ports_map))` is exact in float
arithmetic and truncates to `len / 2` (floor). -/
def summarizeEntry (e : String × PortMap) : Summary :=
  let opens := (e.2.filter (fun pv => pv.2.state = "open")).map Prod.fst
  let filtered := (e.2.filter (fun pv => pv.2.state = "filtered")).map Prod.fst
  let warns := if filtered.length ≥ max 5 (e.2.length / 2) then [firewallWarning] else []
  ⟨e.1, opens, warns⟩

/-- The summary loop over `results.items()` (scanner.py lines 68-74). -/
def summarize (rs : Results) : List Summary :=
  rs.map summarizeEntry

/-- The dict returned at scanner.py lines 77-78. -/
structure ScanDoc where
  started_ms : Int
  ended_ms : Int
  targets : List String
  results : Results
  summaries : List Summary
deriving Repr, DecidableEq

/-- The nondeterministic environment of one `scan` execution: the
successive values read from `_stop`, the order completed futures are
handed back by `as_completed` (as the list of units in arrival order),
each unit's connection outcome and clock samples, and the two
`time.time()` samples bounding the run. -/
structure Sched where
  stop : Nat → Bool
  arrivals : List (String × Nat)
  outcome : String → Nat → ConnOutcome
  tStart : String → Nat → Int
  tEnd : String → Nat → Int
  startedAt : Int
  endedAt : Int

/-- The flag `_stop` only ever transitions `False → True` (`stop()` sets it and
nothing clears it), so the successive reads are monotone. -/
def MonoStop (stop : Nat → Bool) : Prop :=
  ∀ i j : Nat, i ≤ j → stop i = true → stop j = true

/-- What `fut.result()` yields for one submitted unit: the value
`_tcp_probe` returned, or the exception it let escape. -/
def probeEvent (s : Sched) (u : String × Nat) :
    Except String (String × Nat × ProbeResult) :=
  tcp_probe u.1 u.2 (s.tStart u.1 u.2) (s.outcome u.1 u.2) (s.tEnd u.1 u.2)

/-- The units `scan` submits to the pool, in submission order. -/
def submittedUnits (targets : List String) (ports : List Nat) (do_tcp : Bool)
    (s : Sched) : List (String × Nat) :=
  (submitAll s.stop do_tcp ports targets 0).1.map Prod.fst

/-- A schedule is an execution of `scan targets ports do_tcp` when its
arrival order is a permutation of the submitted units (`as_completed`
yields every submitted future exactly once, in some order). -/
def Sched.valid (s : Sched) (targets : List String) (ports : List Nat)
    (do_tcp : Bool) : Prop :=
  s.arrivals.Perm (submittedUnits targets ports do_tcp s)

/-- Embeds `PortScanner.scan` (scanner.py lines 32-78), returning the
result document together with the final drain state (whose fields hold
the `done` counter and the callback traces). -/
def scan (targets : List String) (ports : List Nat) (do_tcp : Bool) (s : Sched) :
    ScanDoc × DrainState :=
  let total := max 1 (targets.length * ports.length)
  let k1 := (submitAll s.stop do_tcp ports targets 0).2
  let events := s.arrivals.map (probeEvent s)
  let st := (drainLoop s.stop total events k1 ⟨initResults targets, 0, [], []⟩).1
  (⟨s.startedAt, s.endedAt, targets, st.results, summarize st.results⟩, st)

/-- A probe result with the given state and otherwise default fields,
for building concrete `results` states in examples. -/
def prState (st : String) : ProbeResult := ⟨"tcp", st, 0, ""⟩

/-- A host's recorded port map after 10 probes: 5 `filtered`, 5 `open`
(the spec's first warning-threshold example). -/
def pmTenFive : PortMap :=
  [(1, prState "filtered"), (2, prState "filtered"), (3, prState "filtered"),
   (4, prState "filtered"), (5, prState "filtered"), (6, prState "open"),
   (7, prState "open"), (8, prState "open"), (9, prState "open"),
   (10, prState "open")]

/-- A host's recorded port map after 10 probes: 4 `filtered`, 6 `open`
(the spec's second warning-threshold example). -/
def pmTenFour : PortMap :=
  [(1, prState "filtered"), (2, prState "filtered"), (3, prState "filtered"),
   (4, prState "filtered"), (5, prState "open"), (6, prState "open"),
   (7, prState "open"), (8, prState "open"), (9, prState "open"),
   (10, prState "open")]

/-- Modelled from the spec: the `ceil(0.5 × n)` occurring in the
warning-policy sentence (`filtered_count ≥ max(5, ceil(0.5 × n))`).
The code itself computes `int(0.5*n)`, which truncates (floor). -/
def ceilHalf (n : Nat) : Nat := (n + 1) / 2

/-- Eleven ports, to probe one host on an odd port count. -/
def elevenPorts : List Nat := [1, 2, 3, 4, 5, 6, 7, 8, 9, 10, 11]

/-- An execution where host "h" is probed on `elevenPorts`, ports 1-5
time out and the rest are refused; completions arrive in submission
order and the stop flag is never set. -/
def schedEleven : Sched where
  stop := fun _ => false
  arrivals := elevenPorts.map (fun p => ("h", p))
  outcome := fun _ p => if p ≤ 5 then ConnOutcome.timedOut else ConnOutcome.refused
  tStart := fun _ _ => 0
  tEnd := fun _ _ => 0
  startedAt := 0
  endedAt := 0

/-- An execution where host "h" is probed on ports 22 and 80, both
connections succeed, and the completion for port 80 arrives first. -/
def schedRev : Sched where
  stop := fun _ => false
  arrivals := [("h", 80), ("h", 22)]
  outcome := fun _ _ => ConnOutcome.established
  tStart := fun _ _ => 0
  tEnd := fun _ _ => 0
  startedAt := 0
  endedAt := 0

/-- An execution with no completions at all (used with inputs that
submit no probe units). -/
def schedNil : Sched where
  stop := fun _ => false
  arrivals := []
  outcome := fun _ _ => ConnOutcome.established
  tStart := fun _ _ => 0
  tEnd := fun _ _ => 0
  startedAt := 0
  endedAt := 0

/-- A stop-flag read trace where `stop()` lands between the first and
second reads: `False` at read 0, `True` from read 1 on (monotone). -/
def stopAfterOne (k : Nat) : Bool := decide (1 ≤ k)

/-- An execution probing one host on one port, the connection
succeeding and its completion arriving. -/
def schedOne : Sched where
  stop := fun _ => false
  arrivals := [("a", 80)]
  outcome := fun _ _ => ConnOutcome.established
  tStart := fun _ _ => 0
  tEnd := fun _ _ => 0
  startedAt := 0
  endedAt := 0

end PortScan

namespace Common

/-- Embeds `TOP_PORTS` (common.py lines 3-4). -/
def TOP_PORTS : List Nat :=
  [21, 22, 23, 25, 53, 80, 110, 135, 139, 143, 389, 443, 445, 587, 993, 995,
   1433, 1521, 3306, 3389, 5432, 5900, 6379, 8080, 9000]

/-- A token of the custom port string after splitting on commas and
stripping: either a bare integer or a range `a-b` (`token.split("-",1)`
makes every token containing a dash a range; both bare integers and
range endpoints are nonnegative since a leading dash would make the
text before it empty and unparseable). -/
inductive PortTok where
  | single (n : Nat)
  | interval (a b : Nat)
deriving Repr, DecidableEq

/-- Embeds `out.update(range(min(a,b), max(a,b)+1))` resp. `out.add(int(token))`
(common.py lines 36-38), as the set a token contributes. -/
def tokPorts : PortTok → Finset Nat
  | .single n => {n}
  | .interval a b => Finset.Icc (min a b) (max a b)

/-- Embeds `mode.lower()`: character-wise lowercasing of the mode string (the
mode strings involved are ASCII, where Python's `str.lower` and
`Char.toLower` agree).  Taken over the string's character list so that
it reduces in the kernel, which `String.toLower`'s `mapAux` does not. -/
def lower (s : String) : String := ⟨s.data.map Char.toLower⟩

/-- Embeds `parse_ports` (common.py lines 26-39); the custom string is
taken after comma-splitting, as its token list. -/
def parse_ports (mode : String) (custom : List PortTok) : List Nat :=
  let m := lower mode
  if m = "quick" then TOP_PORTS
  else if m = "full" then List.range' 1 1024
  else
    ((custom.foldl (fun s t => s ∪ tokPorts t) (∅ : Finset Nat)).filter
      (fun p => 1 ≤ p ∧ p ≤ 65535)).sort (· ≤ ·)

end Common

namespace PortScan

/-- C3 (amended): for every outcome of the connection attempt that lies
in the `OSError` hierarchy (established, refused, timed out, other OS
error) `_tcp_probe` returns a `ProbeResult` whose state is one of the
four classifications; outcomes outside that hierarchy are the ones it
does not convert. -/
theorem tcp_probe_classifies_os_outcomes :
    ∀ (host : String) (port : Nat) (t0 t1 : Int) (oc : ConnOutcome),
      (∀ msg, oc ≠ ConnOutcome.unexpected msg) →
      ∃ r : ProbeResult, tcp_probe host port t0 oc t1 = Except.ok (host, port, r) ∧
        r.state ∈ (["open", "closed", "filtered", "error"] : List String) := by
  intro host port t0 t1 oc hoc
  cases oc with
  | established => exact ⟨_, rfl, by simp⟩
  | refused => exact ⟨_, rfl, by simp⟩
  | timedOut => exact ⟨_, rfl, by simp⟩
  | osError msg => exact ⟨_, rfl, by simp⟩
  | unexpected msg => exact absurd rfl (hoc msg)

/-- C3 counterexample: an exception outside the `OSError` hierarchy is
matched by none of the three `except` clauses and escapes `_tcp_probe`
instead of being converted into a `ProbeResult`. -/
theorem tcp_probe_unexpected_escapes :
    tcp_probe "h" 80 0 (ConnOutcome.unexpected "boom") 1 = Except.error "boom" := rfl

/-- C3 witness: the amended theorem applied to a refused connection —
the probe returns normally there. -/
theorem tcp_probe_classifies_os_outcomes_witness :
    (tcp_probe "h" 80 0 ConnOutcome.refused 1).isOk = true := by
  obtain ⟨r, hr, -⟩ := tcp_probe_classifies_os_outcomes "h" 80 0 1 ConnOutcome.refused
    (fun _ h => ConnOutcome.noConfusion h)
  rw [hr]
  rfl

/-- C4 (amended): every `ProbeResult` returned by `_tcp_probe` has
`proto = "tcp"`, `latency_ms` equal to the elapsed wall-clock time
(nonnegative whenever the clock did not step backwards), a state among
the four classifications, and an error string that is non-empty *only
if* the state is `error`; when the state is `error` the string is
`str(e)` of the caught `OSError`, which may itself be empty. -/
theorem tcp_probe_result_fields :
    ∀ (host : String) (port : Nat) (t0 t1 : Int) (oc : ConnOutcome)
      (h : String) (p : Nat) (r : ProbeResult),
      tcp_probe host port t0 oc t1 = Except.ok (h, p, r) →
        r.proto = "tcp" ∧ r.latency_ms = t1 - t0 ∧ (t0 ≤ t1 → 0 ≤ r.latency_ms) ∧
        r.state ∈ (["open", "closed", "filtered", "error"] : List String) ∧
        (r.error ≠ "" → r.state = "error") ∧
        (r.state = "error" → ∃ msg, oc = ConnOutcome.osError msg ∧ r.error = msg) := by
  intro host port t0 t1 oc h p r heq
  cases oc with
  | established =>
    simp only [tcp_probe, Except.ok.injEq, Prod.mk.injEq] at heq
    obtain ⟨-, -, hr⟩ := heq
    subst hr
    exact ⟨rfl, rfl, fun hle => Int.sub_nonneg.mpr hle, by simp, by simp, by simp⟩
  | refused =>
    simp only [tcp_probe, Except.ok.injEq, Prod.mk.injEq] at heq
    obtain ⟨-, -, hr⟩ := heq
    subst hr
    exact ⟨rfl, rfl, fun hle => Int.sub_nonneg.mpr hle, by simp, by simp, by simp⟩
  | timedOut =>
    simp only [tcp_probe, Except.ok.injEq, Prod.mk.injEq] at heq
    obtain ⟨-, -, hr⟩ := heq
    subst hr
    exact ⟨rfl, rfl, fun hle => Int.sub_nonneg.mpr hle, by simp, by simp, by simp⟩
  | osError msg =>
    simp only [tcp_probe, Except.ok.injEq, Prod.mk.injEq] at heq
    obtain ⟨-, -, hr⟩ := heq
    subst hr
    exact ⟨rfl, rfl, fun hle => Int.sub_nonneg.mpr hle, by simp, fun _ => rfl,
      fun _ => ⟨msg, rfl, rfl⟩⟩
  | unexpected msg => simp [tcp_probe] at heq

/-- C4 counterexample: an `OSError` whose `str(e)` is empty yields
`state = "error"` with an empty error string, refuting the "non-empty
if and only if" direction of the claim. -/
theorem tcp_probe_empty_oserror_message :
    tcp_probe "h" 1 0 (ConnOutcome.osError "") 5 =
      Except.ok ("h", 1, ⟨"tcp", "error", 5, ""⟩) ∧
    (ProbeResult.mk "tcp" "error" 5 "").state = "error" ∧
    (ProbeResult.mk "tcp" "error" 5 "").error = "" := by
  refine ⟨?_, rfl, rfl⟩
  show Except.ok ("h", 1, (⟨"tcp", "error", (5 : Int) - 0, ""⟩ : ProbeResult)) = _
  norm_num

/-- C4 witness: the amended theorem applied to a successful connect
with clock samples 0 and 3. -/
theorem tcp_probe_result_fields_witness :
    (ProbeResult.mk "tcp" "open" 3 "").proto = "tcp" ∧
    (ProbeResult.mk "tcp" "open" 3 "").latency_ms = 3 - 0 ∧
    (0 : Int) ≤ (ProbeResult.mk "tcp" "open" 3 "").latency_ms ∧
    (ProbeResult.mk "tcp" "open" 3 "").state ∈
      (["open", "closed", "filtered", "error"] : List String) := by
  have h := tcp_probe_result_fields "h" 80 0 3 ConnOutcome.established "h" 80
    ⟨"tcp", "open", 3, ""⟩ (by norm_num [tcp_probe])
  exact ⟨h.1, h.2.1, h.2.2.1 (by norm_num), h.2.2.2.1⟩

/-- C1 (amended): a host's summary carries the firewall advisory if and
only if the number of its ports whose stored tcp state is `filtered` is
at least `max(5, floor(0.5 × number of ports recorded for this host))`
— the code truncates (`int(0.5*len)`) where the claim says ceil —,
there is exactly one threshold check so `warnings` is `[]` or the one
advisory, and the spec's 5-of-10 / 4-of-10 examples behave as stated
(floor and ceil agree on even counts). -/
theorem summarize_firewall_threshold_floor :
    ∀ (h : String) (pm : PortMap),
      (firewallWarning ∈ (summarizeEntry (h, pm)).warnings ↔
        (pm.filter (fun pv => pv.2.state = "filtered")).length ≥ max 5 (pm.length / 2)) ∧
      ((summarizeEntry (h, pm)).warnings = [] ∨
        (summarizeEntry (h, pm)).warnings = [firewallWarning]) ∧
      (∀ rs : Results, summarize rs = rs.map summarizeEntry) ∧
      firewallWarning ∈ (summarizeEntry ("a", pmTenFive)).warnings ∧
      firewallWarning ∉ (summarizeEntry ("a", pmTenFour)).warnings := by
  intro h pm
  refine ⟨?_, ?_, fun rs => rfl, by decide, by decide⟩
  · simp only [summarizeEntry, List.length_map]
    split
    · next hc => simp [hc]
    · next hc => simp [hc]
  · simp only [summarizeEntry]
    split
    · exact Or.inr rfl
    · exact Or.inl rfl

/-- C1 counterexample: probing one host on 11 ports of which exactly 5
time out, the code emits the firewall advisory (`5 ≥ max(5, int(0.5·11))
= max(5, 5)`), while the claim's ceil-based threshold is not met
(`5 < max(5, ceil(0.5·11)) = 6`). -/
theorem summarize_firewall_ceil_counterexample :
    (scan ["h"] elevenPorts true schedEleven).1.results.map (fun e => e.2.length) = [11] ∧
    (scan ["h"] elevenPorts true schedEleven).1.results.map
      (fun e => (e.2.filter (fun pv => pv.2.state = "filtered")).length) = [5] ∧
    (scan ["h"] elevenPorts true schedEleven).1.summaries.map Summary.warnings
      = [[firewallWarning]] ∧
    ¬ (5 ≥ max 5 (ceilHalf 11)) := by
  refine ⟨by decide, by decide, by decide, by decide⟩

/-- C7 (amended): a host's `open_tcp` lists exactly the ports whose
stored tcp state is `open`, but in the order the completions were
recorded into the host's port map (dict insertion order), not sorted:
it is a sublist of the port map's key sequence. -/
theorem summarize_open_tcp_membership :
    ∀ (h : String) (pm : PortMap),
      (∀ p : Nat, p ∈ (summarizeEntry (h, pm)).open_tcp ↔
        ∃ r : ProbeResult, (p, r) ∈ pm ∧ r.state = "open") ∧
      (summarizeEntry (h, pm)).open_tcp.Sublist (pm.map Prod.fst) := by
  intro h pm
  constructor
  · intro p
    simp only [summarizeEntry, List.mem_map, List.mem_filter]
    constructor
    · rintro ⟨⟨q, r⟩, ⟨hmem, hst⟩, rfl⟩
      exact ⟨r, hmem, by simpa using hst⟩
    · rintro ⟨r, hmem, hst⟩
      exact ⟨(p, r), ⟨hmem, by simpa using hst⟩, rfl⟩
  · exact (List.filter_sublist _).map _

/-- C7 counterexample: host "h" probed on ports 22 and 80, both open,
with the completion for 80 arriving first (a legal arrival order: a
permutation of the submitted units) — `open_tcp` comes out `[80, 22]`,
not in ascending port order. -/
theorem scan_open_tcp_not_sorted :
    (scan ["h"] [22, 80] true schedRev).1.summaries.map Summary.open_tcp = [[80, 22]] ∧
    ¬ List.Sorted (· ≤ ·) ([80, 22] : List Nat) ∧
    schedRev.arrivals.Perm (submittedUnits ["h"] [22, 80] true schedRev) := by
  refine ⟨by decide, by decide, ?_⟩
  exact List.Perm.swap _ _ _

end PortScan

namespace Common

/-- C9: `parse_ports` always yields an ascending, duplicate-free list
of ports in `[1, 65535]`; mode `quick` yields the fixed `TOP_PORTS`
list, mode `full` yields exactly `[1, ..., 1024]`, custom mode yields
exactly the tokens' union with out-of-range ports excluded, and a range
token is order-independent (`b-a` contributes the same set as `a-b`,
both tokenwise and through a whole parse). -/
theorem parse_ports_spec :
    (∀ custom, parse_ports "quick" custom = TOP_PORTS) ∧
    (∀ custom, parse_ports "full" custom = List.range' 1 1024) ∧
    (∀ mode custom, List.Sorted (· < ·) (parse_ports mode custom)) ∧
    (∀ mode custom p, p ∈ parse_ports mode custom → 1 ≤ p ∧ p ≤ 65535) ∧
    (∀ custom p, p ∈ parse_ports "custom" custom ↔
      (p ∈ custom.foldl (fun s t => s ∪ tokPorts t) (∅ : Finset Nat) ∧
        1 ≤ p ∧ p ≤ 65535)) ∧
    (∀ a b, tokPorts (PortTok.interval a b) = tokPorts (PortTok.interval b a)) ∧
    (∀ mode pre post a b,
      parse_ports mode (pre ++ PortTok.interval a b :: post) =
      parse_ports mode (pre ++ PortTok.interval b a :: post)) := by
  have htok : ∀ a b, tokPorts (PortTok.interval a b) = tokPorts (PortTok.interval b a) := by
    intro a b
    simp only [tokPorts]
    rw [min_comm, max_comm]
  refine ⟨fun custom => rfl, fun custom => rfl, ?_, ?_, ?_, htok, ?_⟩
  · intro mode custom
    simp only [parse_ports]
    split
    · decide
    · split
      · exact List.pairwise_lt_range' 1 1024
      · exact Finset.sort_sorted_lt _
  · intro mode custom p
    simp only [parse_ports]
    split
    · intro hp
      revert p
      decide
    · split
      · intro hp
        rw [List.mem_range'_1] at hp
        omega
      · intro hp
        rw [Finset.mem_sort] at hp
        exact (Finset.mem_filter.mp hp).2
  · intro custom p
    show p ∈ parse_ports "custom" custom ↔ _
    simp only [parse_ports]
    rw [if_neg (by decide), if_neg (by decide), Finset.mem_sort, Finset.mem_filter]
  · intro mode pre post a b
    simp only [parse_ports, List.foldl_append, List.foldl_cons, htok a b]

/-- C9 witness: the theorem applied concretely — quick mode on an empty
custom list, and the bounds instantiated at port 21 of the quick
list. -/
theorem parse_ports_spec_witness :
    parse_ports "quick" [] = TOP_PORTS ∧ (1 ≤ 21 ∧ 21 ≤ 65535) := by
  refine ⟨parse_ports_spec.1 [], parse_ports_spec.2.2.2.1 "quick" [] 21 ?_⟩
  rw [parse_ports_spec.1 []]
  decide

end Common

namespace PortScan

/-- Every unit the inner submission loop emits was submitted right
after a stop-flag read that returned `False`, for this host, on one of
its ports. -/
theorem mem_submitPorts {stop : Nat → Bool} {do_tcp : Bool} {h : String} :
    ∀ {ports : List Nat} {k : Nat} {u : String × Nat} {i : Nat},
      (u, i) ∈ (submitPorts stop do_tcp h ports k).1 →
      stop i = false ∧ u.1 = h ∧ u.2 ∈ ports := by
  intro ports
  induction ports with
  | nil => intro k u i hmem; simp [submitPorts] at hmem
  | cons p rest ih =>
    intro k u i hmem
    simp only [submitPorts] at hmem
    split at hmem
    · simp at hmem
    · next hstop =>
      rw [List.mem_append] at hmem
      rcases hmem with hmem | hmem
      · split at hmem
        · simp only [List.mem_singleton, Prod.mk.injEq] at hmem
          obtain ⟨rfl, rfl⟩ := hmem
          exact ⟨by simpa using hstop, rfl, List.mem_cons_self p rest⟩
        · simp at hmem
      · obtain ⟨h1, h2, h3⟩ := ih hmem
        exact ⟨h1, h2, List.mem_cons_of_mem p h3⟩

/-- Every unit the submission loop emits was submitted right after a
stop-flag read that returned `False`, for one of the targets on one of
the ports. -/
theorem mem_submitAll {stop : Nat → Bool} {do_tcp : Bool} {ports : List Nat} :
    ∀ {targets : List String} {k : Nat} {u : String × Nat} {i : Nat},
      (u, i) ∈ (submitAll stop do_tcp ports targets k).1 →
      stop i = false ∧ u.1 ∈ targets ∧ u.2 ∈ ports := by
  intro targets
  induction targets with
  | nil => intro k u i hmem; simp [submitAll] at hmem
  | cons h rest ih =>
    intro k u i hmem
    simp only [submitAll] at hmem
    rw [List.mem_append] at hmem
    rcases hmem with hmem | hmem
    · obtain ⟨h1, h2, h3⟩ := mem_submitPorts hmem
      exact ⟨h1, h2 ▸ List.mem_cons_self h rest, h3⟩
    · obtain ⟨h1, h2, h3⟩ := ih hmem
      exact ⟨h1, List.mem_cons_of_mem h h2, h3⟩

/-- The inner loop submits at most one unit per port. -/
theorem submitPorts_length {stop : Nat → Bool} {do_tcp : Bool} {h : String} :
    ∀ (ports : List Nat) (k : Nat),
      (submitPorts stop do_tcp h ports k).1.length ≤ ports.length := by
  intro ports
  induction ports with
  | nil => intro k; simp [submitPorts]
  | cons p rest ih =>
    intro k
    simp only [submitPorts]
    split
    · simp
    · rw [List.length_append, List.length_cons]
      have h1 := ih (k + 1)
      have h2 : (if do_tcp then [((h, p), k)] else []).length ≤ 1 := by
        split <;> simp
      omega

/-- The submission loop submits at most `|targets| × |ports|` units. -/
theorem submitAll_length {stop : Nat → Bool} {do_tcp : Bool} {ports : List Nat} :
    ∀ (targets : List String) (k : Nat),
      (submitAll stop do_tcp ports targets k).1.length ≤ targets.length * ports.length := by
  intro targets
  induction targets with
  | nil => intro k; simp [submitAll]
  | cons h rest ih =>
    intro k
    simp only [submitAll, List.length_append, List.length_cons]
    have h1 := @submitPorts_length stop do_tcp h ports k
    have h2 := ih (submitPorts stop do_tcp h ports k).2
    calc (submitPorts stop do_tcp h ports k).1.length +
          (submitAll stop do_tcp ports rest (submitPorts stop do_tcp h ports k).2).1.length
        ≤ ports.length + rest.length * ports.length := Nat.add_le_add h1 h2
      _ = (rest.length + 1) * ports.length := by ring

/-- With `do_tcp = False` the inner loop submits nothing. -/
theorem submitPorts_no_tcp {stop : Nat → Bool} {h : String} :
    ∀ (ports : List Nat) (k : Nat), (submitPorts stop false h ports k).1 = [] := by
  intro ports
  induction ports with
  | nil => intro k; rfl
  | cons p rest ih =>
    intro k
    simp only [submitPorts]
    split
    · rfl
    · simpa using ih (k + 1)

/-- With `do_tcp = False` the submission loop submits nothing. -/
theorem submitAll_no_tcp {stop : Nat → Bool} {ports : List Nat} :
    ∀ (targets : List String) (k : Nat), (submitAll stop false ports targets k).1 = [] := by
  intro targets
  induction targets with
  | nil => intro k; rfl
  | cons h rest ih =>
    intro k
    simp only [submitAll, submitPorts_no_tcp, List.nil_append]
    exact ih _

/-- With an empty port list the submission loop submits nothing (the
inner loop body never runs). -/
theorem submitAll_empty_ports {stop : Nat → Bool} {do_tcp : Bool} :
    ∀ (targets : List String) (k : Nat), (submitAll stop do_tcp [] targets k).1 = [] := by
  intro targets
  induction targets with
  | nil => intro k; rfl
  | cons h rest ih =>
    intro k
    simp only [submitAll, submitPorts, List.nil_append]
    exact ih _

/-- Reading `hasKey` through the key sequence. -/
theorem hasKey_iff_mem_keys {α β : Type} [DecidableEq α] (rs : List (α × β)) (t : α) :
    hasKey rs t = true ↔ t ∈ rs.map Prod.fst := by
  simp [hasKey, List.any_eq_true, List.mem_map, decide_eq_true_eq]

/-- The dict comprehension only ever installs empty port maps. -/
theorem initResults_vals :
    ∀ (ts : List String) (acc : Results),
      (∀ e ∈ acc, e.2 = ([] : PortMap)) →
      ∀ e ∈ ts.foldl insertEmptyHost acc, e.2 = ([] : PortMap) := by
  intro ts
  induction ts with
  | nil => intro acc hacc; simpa using hacc
  | cons t rest ih =>
    intro acc hacc
    simp only [List.foldl_cons]
    apply ih
    intro e he
    simp only [insertEmptyHost] at he
    split at he
    · exact hacc e he
    · rw [List.mem_append] at he
      rcases he with he | he
      · exact hacc e he
      · simp only [List.mem_singleton] at he
        subst he; rfl

/-- Inserting a host never removes keys. -/
theorem hasKey_insertEmptyHost {rs : Results} {u t : String} (hk : hasKey rs u = true) :
    hasKey (insertEmptyHost rs t) u = true := by
  simp only [insertEmptyHost]
  split
  · exact hk
  · simp [hasKey, List.any_append, hasKey] at hk ⊢
    exact Or.inl hk

/-- Inserting a host makes its key present. -/
theorem hasKey_insertEmptyHost_self (rs : Results) (t : String) :
    hasKey (insertEmptyHost rs t) t = true := by
  simp only [insertEmptyHost]
  split
  · next hk => exact hk
  · simp [hasKey, List.any_append]

/-- Folding host insertions never removes keys. -/
theorem hasKey_foldl_insert {u : String} :
    ∀ (ts : List String) (acc : Results),
      hasKey acc u = true → hasKey (ts.foldl insertEmptyHost acc) u = true := by
  intro ts
  induction ts with
  | nil => intro acc h; exact h
  | cons t rest ih =>
    intro acc h
    exact ih _ (hasKey_insertEmptyHost h)

/-- Every target ends up as a key of the initial `results` dict. -/
theorem initResults_hasKey :
    ∀ (ts : List String) (acc : Results) (t : String), t ∈ ts →
      hasKey (ts.foldl insertEmptyHost acc) t = true := by
  intro ts
  induction ts with
  | nil => intro acc t h; simp at h
  | cons t' rest ih =>
    intro acc t h
    rcases List.mem_cons.mp h with rfl | h
    · exact hasKey_foldl_insert rest _ (hasKey_insertEmptyHost_self acc t)
    · exact ih _ t h

/-- On duplicate-free targets the dict comprehension is exactly the
targets list paired with empty maps. -/
theorem initResults_nodup :
    ∀ (ts : List String) (acc : Results), ts.Nodup →
      (∀ t ∈ ts, hasKey acc t = false) →
      ts.foldl insertEmptyHost acc = acc ++ ts.map (fun t => (t, ([] : PortMap))) := by
  intro ts
  induction ts with
  | nil => intro acc _ _; simp
  | cons t rest ih =>
    intro acc hnd hfresh
    have hat : hasKey acc t = false := hfresh t (List.mem_cons_self t rest)
    simp only [List.foldl_cons, insertEmptyHost, hat, Bool.false_eq_true, if_false,
      List.map_cons]
    rw [ih (acc ++ [(t, [])]) (List.nodup_cons.mp hnd).2]
    · simp
    · intro u hu
      have hne : t ≠ u := by
        intro he; subst he; exact (List.nodup_cons.mp hnd).1 hu
      have h1 : hasKey acc u = false := hfresh u (List.mem_cons_of_mem t hu)
      simp only [hasKey, List.any_append] at h1 ⊢
      simp [h1, hne]

/-- Recording a probe result for an existing host key leaves the key
sequence of `results` unchanged. -/
theorem recordResult_keys {rs : Results} {h : String} {p : Nat} {info : ProbeResult}
    (hk : hasKey rs h = true) :
    (recordResult rs h p info).map Prod.fst = rs.map Prod.fst := by
  simp only [recordResult, hk, if_true]
  have hmap : ∀ rs' : Results,
      (rs'.map (fun e => if e.1 = h then (e.1, setPort e.2 p info) else e)).map Prod.fst =
        rs'.map Prod.fst := by
    intro rs'
    induction rs' with
    | nil => rfl
    | cons e rest ih =>
      simp only [List.map_cons, List.cons.injEq]
      exact ⟨by split <;> rfl, ih⟩
  exact hmap rs

/-- The drain loop never adds a host key: if every completion event's
host is already a key, the key sequence is preserved. -/
theorem drainLoop_keys {stop : Nat → Bool} {total : Nat} {K : List String} :
    ∀ (events : List (Except String (String × Nat × ProbeResult))) (k : Nat)
      (st : DrainState),
      st.results.map Prod.fst = K →
      (∀ e ∈ events, ∀ h p info, e = Except.ok (h, p, info) → h ∈ K) →
      ((drainLoop stop total events k st).1).results.map Prod.fst = K := by
  intro events
  induction events with
  | nil => intro k st hst _; exact hst
  | cons e rest ih =>
    intro k st hst hev
    cases e with
    | error m =>
      simp only [drainLoop]
      split
      · exact hst
      · exact ih _ _ hst (fun e he => hev e (List.mem_cons_of_mem _ he))
    | ok v =>
      obtain ⟨h, p, info⟩ := v
      simp only [drainLoop]
      split
      · exact hst
      · apply ih _ _ ?_ (fun e he => hev e (List.mem_cons_of_mem _ he))
        have hmem : h ∈ K := hev _ (List.mem_cons_self _ _) h p info rfl
        have hk : hasKey st.results h = true :=
          (hasKey_iff_mem_keys st.results h).mpr (hst ▸ hmem)
        rw [recordResult_keys hk, hst]

/-- The drain loop's progress trace: if the trace so far is
`(1, total), ..., (done, total)` it stays of that shape. -/
theorem drainLoop_progress {stop : Nat → Bool} {total : Nat} :
    ∀ (events : List (Except String (String × Nat × ProbeResult))) (k : Nat)
      (st : DrainState),
      st.progressCalls = (List.range st.done).map (fun i => (i + 1, total)) →
      ((drainLoop stop total events k st).1).progressCalls =
        (List.range ((drainLoop stop total events k st).1).done).map
          (fun i => (i + 1, total)) := by
  intro events
  induction events with
  | nil => intro k st h; exact h
  | cons e rest ih =>
    intro k st h
    cases e with
    | error m =>
      simp only [drainLoop]
      split
      · exact h
      · exact ih _ _ h
    | ok v =>
      obtain ⟨h', p, info⟩ := v
      simp only [drainLoop]
      split
      · exact h
      · exact ih _ _ (by simp [h, List.range_succ])

/-- Each drained event advances `done` by at most one. -/
theorem drainLoop_done_le {stop : Nat → Bool} {total : Nat} :
    ∀ (events : List (Except String (String × Nat × ProbeResult))) (k : Nat)
      (st : DrainState),
      ((drainLoop stop total events k st).1).done ≤ st.done + events.length := by
  intro events
  induction events with
  | nil => intro k st; simp [drainLoop]
  | cons e rest ih =>
    intro k st
    cases e with
    | error m =>
      simp only [drainLoop]
      split
      · simp
      · have := ih (k + 1) st
        simp only [List.length_cons]
        omega
    | ok v =>
      obtain ⟨h', p, info⟩ := v
      simp only [drainLoop]
      split
      · simp
      · have := ih (k + 1)
          { results := recordResult st.results h' p info
            done := st.done + 1
            resultCalls := st.resultCalls ++ [(h', p, info)]
            progressCalls := st.progressCalls ++ [(st.done + 1, total)] }
        simp only [List.length_cons]
        simp at this
        omega

/-- A successfully returning probe reports exactly its own unit. -/
theorem probeEvent_ok {s : Sched} {u : String × Nat} {h : String} {p : Nat}
    {info : ProbeResult} (he : probeEvent s u = Except.ok (h, p, info)) :
    h = u.1 ∧ p = u.2 := by
  simp only [probeEvent, tcp_probe] at he
  split at he <;> simp_all

/-- A host with no recorded ports gets no warnings. -/
theorem summarizeEntry_empty_warnings (e : String × PortMap) (h2 : e.2 = []) :
    (summarizeEntry e).warnings = [] := by
  obtain ⟨h, pm⟩ := e
  simp only at h2
  subst h2
  simp [summarizeEntry]

/-- C2: since `_stop` only ever transitions `False → True` within a
scan, every submitted unit's stop-flag read returned `False`, and every
unit is submitted strictly before any read that observes the flag set —
once the flag is observed set, no further unit is submitted, across the
remaining ports of the current target and across all remaining targets
(the inner `break` re-fires at the first read of each later target). -/
theorem scan_no_submission_after_stop :
    ∀ (stop : Nat → Bool) (targets : List String) (ports : List Nat) (do_tcp : Bool),
      MonoStop stop →
      (∀ u i, (u, i) ∈ (submitAll stop do_tcp ports targets 0).1 → stop i = false) ∧
      (∀ j u i, stop j = true → (u, i) ∈ (submitAll stop do_tcp ports targets 0).1 →
        i < j) := by
  intro stop targets ports do_tcp hmono
  have h1 : ∀ u i, (u, i) ∈ (submitAll stop do_tcp ports targets 0).1 → stop i = false :=
    fun u i hm => (mem_submitAll hm).1
  refine ⟨h1, fun j u i hj hm => ?_⟩
  rcases Nat.lt_or_ge i j with hlt | hge
  · exact hlt
  · have := hmono j i hge hj
    rw [h1 u i hm] at this
    exact absurd this (by simp)

/-- C2 witness: the theorem applied to a never-set stop flag, one
target and one port. -/
theorem scan_no_submission_after_stop_witness :
    stopAfterOne 0 = false ∧ (0 : Nat) < 1 := by
  have hmono : MonoStop stopAfterOne := by
    intro i j hij hi
    simp only [stopAfterOne, decide_eq_true_eq] at hi ⊢
    omega
  have h := scan_no_submission_after_stop stopAfterOne ["a"] [80] true hmono
  have hmem : (("a", 80), 0) ∈ (submitAll stopAfterOne true [80] ["a"] 0).1 := by decide
  exact ⟨h.1 ("a", 80) 0 hmem, h.2 1 ("a", 80) 0 (by decide) hmem⟩

/-- C6: in every scan execution the `on_progress` trace is exactly
`(1, total), (2, total), ..., (done, total)` — so `done` starts at 0,
advances by exactly 1 per recorded completion and is strictly
increasing across successive calls — `done` never exceeds
`total = max(1, |targets| × |ports|)`, and a drained event whose
execution raised a worker fault leaves the entire state (results, done,
callback traces) unchanged. -/
theorem scan_progress_monotone_bounded :
    ∀ (targets : List String) (ports : List Nat) (do_tcp : Bool) (s : Sched),
      s.valid targets ports do_tcp →
      ((scan targets ports do_tcp s).2.progressCalls =
        (List.range (scan targets ports do_tcp s).2.done).map
          (fun i => (i + 1, max 1 (targets.length * ports.length)))) ∧
      (scan targets ports do_tcp s).2.done ≤ max 1 (targets.length * ports.length) ∧
      (∀ m rest k st, s.stop k = false →
        drainLoop s.stop (max 1 (targets.length * ports.length))
            (Except.error m :: rest) k st =
          drainLoop s.stop (max 1 (targets.length * ports.length)) rest (k + 1) st) := by
  intro targets ports do_tcp s hvalid
  refine ⟨?_, ?_, ?_⟩
  · simp only [scan]
    exact drainLoop_progress _ _ _ (by simp)
  · simp only [scan]
    have h1 := @drainLoop_done_le s.stop (max 1 (targets.length * ports.length))
      (s.arrivals.map (probeEvent s)) (submitAll s.stop do_tcp ports targets 0).2
      ⟨initResults targets, 0, [], []⟩
    have h2 : (s.arrivals.map (probeEvent s)).length = s.arrivals.length :=
      List.length_map _ _
    have h3 : s.arrivals.length = (submittedUnits targets ports do_tcp s).length :=
      hvalid.length_eq
    have h4 : (submittedUnits targets ports do_tcp s).length =
        (submitAll s.stop do_tcp ports targets 0).1.length := List.length_map _ _
    have h5 := @submitAll_length s.stop do_tcp ports targets 0
    have h6 : targets.length * ports.length ≤ max 1 (targets.length * ports.length) :=
      Nat.le_max_right _ _
    simp only at h1
    omega
  · intro m rest k st hstop
    simp [drainLoop, hstop]

/-- C6 witness: the theorem applied to a one-target, one-port execution
whose single completion arrives, plus its worker-fault clause at a
concrete fault event. -/
theorem scan_progress_monotone_bounded_witness :
    ((scan ["a"] [80] true schedOne).2.progressCalls =
      (List.range (scan ["a"] [80] true schedOne).2.done).map
        (fun i => (i + 1, max 1 (["a"].length * [80].length)))) ∧
    (scan ["a"] [80] true schedOne).2.done ≤ max 1 (["a"].length * [80].length) ∧
    (drainLoop schedOne.stop (max 1 (["a"].length * [80].length))
        (Except.error "boom" :: []) 0 ⟨[], 0, [], []⟩ =
      drainLoop schedOne.stop (max 1 (["a"].length * [80].length)) [] 1
        ⟨[], 0, [], []⟩) := by
  have hv : schedOne.valid ["a"] [80] true := List.Perm.refl _
  have h := scan_progress_monotone_bounded ["a"] [80] true schedOne hv
  exact ⟨h.1, h.2.1, h.2.2 "boom" [] 0 ⟨[], 0, [], []⟩ rfl⟩

/-- C10: on duplicate-free targets (the documented caller contract),
the final `results` mapping has exactly the input targets as keys, in
input order — hosts with zero completions keep their empty port map —
and `summaries` has exactly one record per input target, in the same
order. -/
theorem scan_results_cover_targets :
    ∀ (targets : List String) (ports : List Nat) (do_tcp : Bool) (s : Sched),
      targets.Nodup → s.valid targets ports do_tcp →
      ((scan targets ports do_tcp s).1.results.map Prod.fst = targets) ∧
      ((scan targets ports do_tcp s).1.summaries.map Summary.host = targets) := by
  intro targets ports do_tcp s hnd hv
  have hinit : (initResults targets).map Prod.fst = targets := by
    rw [initResults, initResults_nodup targets [] hnd (fun t _ => rfl)]
    have hcomp : (Prod.fst ∘ fun t : String => (t, ([] : PortMap))) = id := rfl
    simp [List.map_map, hcomp]
  have hhosts : ∀ e ∈ s.arrivals.map (probeEvent s), ∀ h p info,
      e = Except.ok (h, p, info) → h ∈ targets := by
    intro e he h p info heq
    obtain ⟨u, hu, rfl⟩ := List.mem_map.mp he
    obtain ⟨rfl, -⟩ := probeEvent_ok heq
    have hu2 : u ∈ submittedUnits targets ports do_tcp s := hv.subset hu
    obtain ⟨⟨u', i⟩, hmem, hfst⟩ := List.mem_map.mp hu2
    obtain ⟨-, h2, -⟩ := mem_submitAll hmem
    simp only at hfst
    subst hfst
    exact h2
  have hsum : ∀ rs : Results, (summarize rs).map Summary.host = rs.map Prod.fst := by
    intro rs
    induction rs with
    | nil => rfl
    | cons e rest ih => simp only [summarize, List.map_cons] at ih ⊢; rw [ih]; rfl
  constructor
  · simp only [scan]
    exact drainLoop_keys _ _ _ hinit hhosts
  · simp only [scan]
    rw [hsum]
    exact drainLoop_keys _ _ _ hinit hhosts

/-- C10 witness: the theorem applied to a one-target, one-port
execution. -/
theorem scan_results_cover_targets_witness :
    ((scan ["a"] [80] true schedOne).1.results.map Prod.fst = ["a"]) ∧
    ((scan ["a"] [80] true schedOne).1.summaries.map Summary.host = ["a"]) :=
  scan_results_cover_targets ["a"] [80] true schedOne (by simp) (List.Perm.refl _)

/-- C8: with `do_tcp = False` no probe unit is submitted, `done` stays
0, neither `on_result` nor `on_progress` is ever invoked, every target
maps to an empty port map in the returned document, and no summary
carries the firewall warning. -/
theorem scan_do_tcp_false_no_work :
    ∀ (targets : List String) (ports : List Nat) (s : Sched),
      s.valid targets ports false →
      submittedUnits targets ports false s = [] ∧
      s.arrivals = [] ∧
      (scan targets ports false s).2.done = 0 ∧
      (scan targets ports false s).2.resultCalls = [] ∧
      (scan targets ports false s).2.progressCalls = [] ∧
      (∀ e ∈ (scan targets ports false s).1.results, e.2 = ([] : PortMap)) ∧
      (∀ t ∈ targets, hasKey (scan targets ports false s).1.results t = true) ∧
      (∀ sm ∈ (scan targets ports false s).1.summaries, sm.warnings = []) := by
  intro targets ports s hv
  have hsub : submittedUnits targets ports false s = [] := by
    simp [submittedUnits, submitAll_no_tcp]
  have harr : s.arrivals = [] := by
    have := hv
    rw [Sched.valid, hsub] at this
    exact List.perm_nil.mp this
  have hres : (scan targets ports false s).1.results = initResults targets := by
    simp [scan, harr, drainLoop]
  refine ⟨hsub, harr, ?_, ?_, ?_, ?_, ?_, ?_⟩
  · simp [scan, harr, drainLoop]
  · simp [scan, harr, drainLoop]
  · simp [scan, harr, drainLoop]
  · rw [hres]
    exact initResults_vals targets [] (by simp)
  · intro t ht
    rw [hres, initResults]
    exact initResults_hasKey targets [] t ht
  · intro sm hsm
    have : (scan targets ports false s).1.summaries = summarize (initResults targets) := by
      simp only [scan]
      simp [harr, drainLoop]
    rw [this, summarize] at hsm
    obtain ⟨e, he, rfl⟩ := List.mem_map.mp hsm
    exact summarizeEntry_empty_warnings e (initResults_vals targets [] (by simp) e he)

/-- C8 witness: the theorem applied to one target and one port with
`do_tcp = False` (no futures exist, so no completion arrives). -/
theorem scan_do_tcp_false_no_work_witness :
    submittedUnits ["a"] [80] false schedNil = [] ∧
    (scan ["a"] [80] false schedNil).2.done = 0 ∧
    (scan ["a"] [80] false schedNil).2.resultCalls = [] ∧
    (scan ["a"] [80] false schedNil).2.progressCalls = [] ∧
    hasKey (scan ["a"] [80] false schedNil).1.results "a" = true := by
  have h := scan_do_tcp_false_no_work ["a"] [80] schedNil (List.Perm.refl _)
  exact ⟨h.1, h.2.2.1, h.2.2.2.1, h.2.2.2.2.1, h.2.2.2.2.2.2.1 "a" (by simp)⟩

/-- C5 (amended): `scan` performs no validation of its inputs: with an
empty target list or an empty port list it submits no probe work and
runs to completion, returning a normal result document whose `results`
is just the initial (possibly empty) per-target skeleton, with no
callback ever invoked — nothing is signalled to the caller as an input
error (empty-input rejection lives in the GUI layer, before `scan` is
called). -/
theorem scan_empty_inputs_no_validation :
    ∀ (targets : List String) (ports : List Nat) (s : Sched),
      targets = [] ∨ ports = [] →
      s.valid targets ports true →
      submittedUnits targets ports true s = [] ∧
      (scan targets ports true s).2.done = 0 ∧
      (scan targets ports true s).2.resultCalls = [] ∧
      (scan targets ports true s).2.progressCalls = [] ∧
      (scan targets ports true s).1.results = initResults targets ∧
      (scan targets ports true s).1.summaries = summarize (initResults targets) := by
  intro targets ports s hempty hv
  have hsub : submittedUnits targets ports true s = [] := by
    rcases hempty with rfl | rfl
    · rfl
    · simp [submittedUnits, submitAll_empty_ports]
  have harr : s.arrivals = [] := by
    have := hv
    rw [Sched.valid, hsub] at this
    exact List.perm_nil.mp this
  exact ⟨hsub, by simp [scan, harr, drainLoop], by simp [scan, harr, drainLoop],
    by simp [scan, harr, drainLoop], by simp [scan, harr, drainLoop],
    by simp [scan, harr, drainLoop]⟩

/-- C5 counterexample: called with an empty target list, `scan` is not
rejected and signals nothing: it returns a completed, empty result
document (and the symmetric empty-ports call likewise returns a
document with every target present and empty). -/
theorem scan_empty_targets_returns_document :
    (scan [] [80] true schedNil).1 = ⟨0, 0, [], [], []⟩ ∧
    (scan [] [80] true schedNil).2 = ⟨[], 0, [], []⟩ ∧
    (scan ["h"] [] true schedNil).1 = ⟨0, 0, ["h"], [("h", [])], [⟨"h", [], []⟩]⟩ := by
  exact ⟨rfl, rfl, rfl⟩

/-- C5 witness: the amended theorem applied to an empty target list. -/
theorem scan_empty_inputs_no_validation_witness :
    submittedUnits [] [80] true schedNil = [] ∧
    (scan [] [80] true schedNil).2.done = 0 := by
  have h := scan_empty_inputs_no_validation [] [80] schedNil (Or.inl rfl)
    (List.Perm.refl _)
  exact ⟨h.1, h.2.1⟩

end PortScan
